import Mathlib

/-!
Verification of the Minesweeper rules engine (class Square and class Game of
minesweeper.py).  The Python classes are shallowly embedded: the mutable
squares dictionary becomes a function from coordinates to squares together
with the stored dimensions, mutation becomes functional update, the dict
lookup that can raise KeyError becomes an Option-returning access, and the
recursive flood-fill open becomes a fuel-indexed function (the fuel runs out
exactly when the Python recursion would not terminate).
-/

namespace Minesweeper

/-- Python class Square (minesweeper.py lines 12-17): three mutable boolean
fields, all defaulting to false. -/
structure Square where
  opened : Bool
  mine : Bool
  flagged : Bool
deriving DecidableEq

/-- Python class Game (minesweeper.py lines 25-36): the stored width, height
and mine count, and the squares dictionary.  The dictionary keyed by the
in-range coordinates is embedded as a total function on Int pairs; only its
values on in-range coordinates are ever used by the operations, and the
lookup that checks dict membership is getSq below. -/
structure Game where
  width : Int
  height : Int
  mines : Int
  squares : Int × Int → Square

/-- Membership test for the squares dictionary: a coordinate (x, y) is a key
iff x is in range(width) and y is in range(height), matching the dict built
on line 34 from all_coords (line 32). -/
def Game.inRangeB (g : Game) (c : Int × Int) : Bool :=
  decide (0 ≤ c.1) && decide (c.1 < g.width) && decide (0 ≤ c.2) && decide (c.2 < g.height)

/-- The dict lookup self[coords] (__getitem__, lines 38-39): returns the
square when the coordinate is a key of the dict and models the KeyError by
none otherwise. -/
def Game.getSq (g : Game) (c : Int × Int) : Option Square :=
  if g.inRangeB c then some (g.squares c) else none

/-- Functional update of one entry of the squares dictionary; this is how
the embedding renders a Python field assignment on self[coords]. -/
def Game.setSquare (g : Game) (c : Int × Int) (sq : Square) : Game :=
  { g with squares := fun d => if d = c then sq else g.squares d }

/-- Python's range(n) read as a list of integers.  For a non-positive bound
range is empty, exactly as Int.toNat sends non-positive integers to 0. -/
def intRange (n : Int) : List Int :=
  (List.range n.toNat).map (Nat.cast : Nat → Int)

/-- The comprehension [(x, y) for x in range(width) for y in range(height)]
(line 32), x-major as in the source. -/
def allCoordsList (w h : Int) : List (Int × Int) :=
  (intRange w).flatMap fun x => (intRange h).map fun y => (x, y)

/-- Game.all_coords (lines 80-81): the keys of the squares dictionary, in
insertion order, which is the order of the comprehension on line 32. -/
def Game.allCoords (g : Game) : List (Int × Int) :=
  allCoordsList g.width g.height

/-- Game.__init__ (lines 28-36) for a given outcome ml of
random.sample(all_coords, mines): every square starts with all fields false
(Square() on line 34) and then mine is set to true exactly on the sampled
coordinates (lines 35-36).  The stored mine count self.mines = mines is the
length of the sample. -/
def mkGame (w h : Int) (ml : List (Int × Int)) : Game :=
  { width := w
    height := h
    mines := (ml.length : Int)
    squares := fun c => { opened := false, mine := decide (c ∈ ml), flagged := false } }

/-- The condition under which random.sample(all_coords, mines) on line 33
succeeds: the Python standard library raises ValueError unless
0 <= mines <= len(all_coords).  Construction of a Game succeeds exactly when
this holds. -/
def sampleOk (w h m : Int) : Bool :=
  decide (0 ≤ m) && decide (m ≤ ((allCoordsList w h).length : Int))

/-- Game.toggle_flag (lines 41-43): looks the coordinate up (KeyError out of
range), then flips flagged exactly when the square is not opened. -/
def Game.toggleFlagE (g : Game) (c : Int × Int) : Option Game :=
  match g.getSq c with
  | none => none
  | some sq => if sq.opened then some g else some (g.setSquare c { sq with flagged := !sq.flagged })

/-- Game.coords_around (lines 56-67): the up to 8 neighbours of the centre
in the generator's order (xdiff outer, ydiff inner, both over (-1, 0, 1)),
skipping the centre and keeping only on-board coordinates. -/
def Game.coordsAround (g : Game) (c : Int × Int) : List (Int × Int) :=
  ([-1, 0, 1] : List Int).flatMap fun xd =>
    ([-1, 0, 1] : List Int).flatMap fun yd =>
      if xd = 0 ∧ yd = 0 then []
      else if g.inRangeB (c.1 + xd, c.2 + yd) then [(c.1 + xd, c.2 + yd)] else []

/-- Game.mines_around (lines 69-72): the neighbours whose square is a mine.
The dict accesses self[minecoords] cannot raise because coords_around only
yields keys of the dict. -/
def Game.minesAround (g : Game) (c : Int × Int) : List (Int × Int) :=
  (g.coordsAround c).filter fun d => (g.squares d).mine

/-- Game.number_of_mines_around (lines 74-78): counts the mines_around
generator by incrementing a counter, i.e. the length of minesAround. -/
def Game.numberOfMinesAround (g : Game) (c : Int × Int) : Nat :=
  (g.minesAround c).length

/-- Game.number_of_mines_around with every dict access rendered explicitly
as getSq, so that the possibility of a KeyError is visible in the type: the
loop of lines 76-77 threads the counter through each access.  The theorem
numberOfMinesAroundE_eq proves the access can in fact never fail, for any
coordinate, in range or not. -/
def Game.numberOfMinesAroundE (g : Game) (c : Int × Int) : Option Nat :=
  (g.coordsAround c).foldlM
    (fun acc d =>
      match g.getSq d with
      | none => none
      | some sq => some (if sq.mine then acc + 1 else acc))
    0

/-- Lines 46-47 of Game.open: the square is marked opened unless it is
flagged. -/
def Game.openCell (g : Game) (c : Int × Int) : Game :=
  if (g.squares c).flagged then g
  else g.setSquare c { g.squares c with opened := true }

/-- Game.open and Game.auto_open (lines 45-54), with fuel counting the depth
of nested recursive open calls: openGo 0 means the recursion has exceeded
the allotted depth, openGo (n+1) g c marks the square opened unless flagged
(lines 46-47), and when the updated board has no mines around c (line 48) it
runs auto_open (lines 51-54): the loop over coords_around that recursively
opens each not-yet-opened neighbour, threading the board state through the
loop.  A none result means the Python call would still be recursing after n
nested calls; a call that terminates returns some of the final state once
the fuel is at least its recursion depth. -/
def openGo : Nat → Game → (Int × Int) → Option Game
  | 0, _, _ => none
  | n + 1, g, c =>
    if (g.openCell c).numberOfMinesAround c = 0 then
      ((g.openCell c).coordsAround c).foldlM
        (fun acc d => if (acc.squares d).opened then some acc else openGo n acc d)
        (g.openCell c)
    else some (g.openCell c)

/-- The auto_open loop (lines 52-54) written as explicit list recursion, for
reasoning; autoOpenL_eq_foldlM identifies it with the fold inside openGo. -/
def autoOpenL (n : Nat) : Game → List (Int × Int) → Option Game
  | g, [] => some g
  | g, d :: ds =>
    if (g.squares d).opened then autoOpenL n g ds
    else
      match openGo n g d with
      | none => none
      | some g' => autoOpenL n g' ds

/-- Outcome of a top-level call to Game.open: the first statement of open is
the dict access self[coords].flagged (line 46), which raises KeyError when
the coordinate is off the board; otherwise the call runs openGo. -/
inductive OpenResult where
  | ok (g : Game)
  | keyErr
  | noFuel
deriving Inhabited

/-- Top-level Game.open (lines 45-49) including the KeyError behaviour of
its first dict access. -/
def Game.openTop (g : Game) (fuel : Nat) (c : Int × Int) : OpenResult :=
  match g.getSq c with
  | none => OpenResult.keyErr
  | some _ =>
    match openGo fuel g c with
    | some g' => OpenResult.ok g'
    | none => OpenResult.noFuel

/-- Game.explosion_coords (lines 83-87): the first coordinate in all_coords
whose square is both a mine and opened, if any. -/
def Game.explosionCoords (g : Game) : Option (Int × Int) :=
  g.allCoords.find? fun c => (g.squares c).mine && (g.squares c).opened

/-- Game.exploded (lines 89-90). -/
def Game.exploded (g : Game) : Bool :=
  g.explosionCoords.isSome

/-- Game.win (lines 92-96): false as soon as some square is neither a mine
nor opened, otherwise the negation of exploded. -/
def Game.win (g : Game) : Bool :=
  (g.allCoords.all fun c => (g.squares c).mine || (g.squares c).opened) && !g.exploded

/-- Game.over (lines 98-99). -/
def Game.over (g : Game) : Bool :=
  g.exploded || g.win

/-- The board states reachable through the public interface: a fresh
construction (for any outcome of random.sample, i.e. any duplicate-free list
of on-board coordinates) followed by any sequence of successful top-level
open and toggle_flag calls on in-range coordinates. -/
inductive Reachable : Game → Prop where
  | init (w h : Int) (ml : List (Int × Int)) (hnd : ml.Nodup)
      (hsub : ∀ c ∈ ml, c ∈ allCoordsList w h) : Reachable (mkGame w h ml)
  | openStep {g g' : Game} (fuel : Nat) (c : Int × Int) (hr : Reachable g)
      (hc : g.inRangeB c = true) (ho : openGo fuel g c = some g') : Reachable g'
  | flagStep {g g' : Game} (c : Int × Int) (hr : Reachable g)
      (ht : g.toggleFlagE c = some g') : Reachable g'

/-- The invariant of claim C3: no square is simultaneously flagged and
opened. -/
def NoFlagOpenInv (g : Game) : Prop :=
  ∀ c : Int × Int, ¬((g.squares c).flagged = true ∧ (g.squares c).opened = true)

/-! Basic lemmas about the functional update of the squares dictionary. -/

theorem setSquare_width (g : Game) (c : Int × Int) (sq : Square) :
    (g.setSquare c sq).width = g.width := rfl

theorem setSquare_height (g : Game) (c : Int × Int) (sq : Square) :
    (g.setSquare c sq).height = g.height := rfl

theorem setSquare_mines (g : Game) (c : Int × Int) (sq : Square) :
    (g.setSquare c sq).mines = g.mines := rfl

theorem setSquare_same (g : Game) (c : Int × Int) (sq : Square) :
    (g.setSquare c sq).squares c = sq := by
  simp [Game.setSquare]

theorem setSquare_ne (g : Game) (c d : Int × Int) (sq : Square) (h : d ≠ c) :
    (g.setSquare c sq).squares d = g.squares d := by
  simp [Game.setSquare, h]

theorem openCell_width (g : Game) (c : Int × Int) : (g.openCell c).width = g.width := by
  unfold Game.openCell; split <;> rfl

theorem openCell_height (g : Game) (c : Int × Int) : (g.openCell c).height = g.height := by
  unfold Game.openCell; split <;> rfl

theorem openCell_mines (g : Game) (c : Int × Int) : (g.openCell c).mines = g.mines := by
  unfold Game.openCell; split <;> rfl

theorem openCell_ne (g : Game) (c d : Int × Int) (h : d ≠ c) :
    (g.openCell c).squares d = g.squares d := by
  unfold Game.openCell
  split
  · rfl
  · exact setSquare_ne g c d _ h

theorem openCell_mine (g : Game) (c d : Int × Int) :
    ((g.openCell c).squares d).mine = (g.squares d).mine := by
  unfold Game.openCell
  split
  · rfl
  · by_cases h : d = c
    · subst h; rw [setSquare_same]
    · rw [setSquare_ne g c d _ h]

theorem openCell_flagged (g : Game) (c d : Int × Int) :
    ((g.openCell c).squares d).flagged = (g.squares d).flagged := by
  unfold Game.openCell
  split
  · rfl
  · by_cases h : d = c
    · subst h; rw [setSquare_same]
    · rw [setSquare_ne g c d _ h]

theorem openCell_opened_mono (g : Game) (c d : Int × Int)
    (h : (g.squares d).opened = true) : ((g.openCell c).squares d).opened = true := by
  unfold Game.openCell
  split
  · exact h
  · by_cases hd : d = c
    · subst hd; rw [setSquare_same]
    · rw [setSquare_ne g c d _ hd]; exact h

theorem openCell_opened_new (g : Game) (c d : Int × Int)
    (hbefore : (g.squares d).opened = false)
    (hafter : ((g.openCell c).squares d).opened = true) :
    d = c ∧ (g.squares c).flagged = false := by
  unfold Game.openCell at hafter
  by_cases hd : d = c
  · subst hd
    refine ⟨rfl, ?_⟩
    by_contra hf
    rw [if_pos (by simpa using hf)] at hafter
    rw [hbefore] at hafter
    exact Bool.false_ne_true hafter
  · exfalso
    split at hafter
    · rw [hbefore] at hafter; exact Bool.false_ne_true hafter
    · rw [setSquare_ne g c d _ hd, hbefore] at hafter; exact Bool.false_ne_true hafter

theorem openCell_opened_self (g : Game) (c : Int × Int)
    (h : (g.squares c).flagged = false) : ((g.openCell c).squares c).opened = true := by
  unfold Game.openCell
  rw [if_neg (by simp [h]), setSquare_same]

/-! The board observations that depend only on the dimensions. -/

theorem inRangeB_congr (g g' : Game) (c : Int × Int)
    (hw : g'.width = g.width) (hh : g'.height = g.height) :
    g'.inRangeB c = g.inRangeB c := by
  unfold Game.inRangeB; rw [hw, hh]

theorem coordsAround_congr (g g' : Game) (c : Int × Int)
    (hw : g'.width = g.width) (hh : g'.height = g.height) :
    g'.coordsAround c = g.coordsAround c := by
  unfold Game.coordsAround Game.inRangeB; rw [hw, hh]

theorem allCoords_congr (g g' : Game)
    (hw : g'.width = g.width) (hh : g'.height = g.height) :
    g'.allCoords = g.allCoords := by
  unfold Game.allCoords; rw [hw, hh]

/-- Everything the mutating operations leave intact: dimensions, the stored
mine count, the mine and flag bits of every square, and monotonicity of the
opened bit. -/
def Pres (g g' : Game) : Prop :=
  g'.width = g.width ∧ g'.height = g.height ∧ g'.mines = g.mines ∧
  ∀ d : Int × Int,
    ((g'.squares d).mine = (g.squares d).mine ∧
     (g'.squares d).flagged = (g.squares d).flagged) ∧
    ((g.squares d).opened = true → (g'.squares d).opened = true)

theorem Pres.refl (g : Game) : Pres g g :=
  ⟨rfl, rfl, rfl, fun _ => ⟨⟨rfl, rfl⟩, fun h => h⟩⟩

theorem Pres.trans {g g1 g2 : Game} (h1 : Pres g g1) (h2 : Pres g1 g2) : Pres g g2 := by
  obtain ⟨w1, h1h, m1, s1⟩ := h1
  obtain ⟨w2, h2h, m2, s2⟩ := h2
  refine ⟨w2.trans w1, h2h.trans h1h, m2.trans m1, fun d => ?_⟩
  obtain ⟨⟨mi1, fl1⟩, op1⟩ := s1 d
  obtain ⟨⟨mi2, fl2⟩, op2⟩ := s2 d
  exact ⟨⟨mi2.trans mi1, fl2.trans fl1⟩, fun h => op2 (op1 h)⟩

theorem pres_openCell (g : Game) (c : Int × Int) : Pres g (g.openCell c) :=
  ⟨openCell_width g c, openCell_height g c, openCell_mines g c, fun d =>
    ⟨⟨openCell_mine g c d, openCell_flagged g c d⟩, openCell_opened_mono g c d⟩⟩

/-! Unfolding the recursive open into its explicit auto-open loop. -/

theorem autoOpenL_eq_foldlM (n : Nat) :
    ∀ (l : List (Int × Int)) (g : Game),
      l.foldlM (fun acc d => if (acc.squares d).opened then some acc else openGo n acc d) g =
        autoOpenL n g l := by
  intro l
  induction l with
  | nil => intro g; rfl
  | cons d ds ih =>
    intro g
    rw [List.foldlM_cons]
    by_cases h : (g.squares d).opened = true
    · simp only [h, if_true, autoOpenL]
      show (some g >>= _) = _
      simpa using ih g
    · simp only [Bool.not_eq_true] at h
      simp only [h, Bool.false_eq_true, if_false, autoOpenL]
      cases ho : openGo n g d with
      | none => rfl
      | some g' =>
        show (some g' >>= _) = _
        simpa using ih g'

theorem openGo_succ (n : Nat) (g : Game) (c : Int × Int) :
    openGo (n + 1) g c =
      if (g.openCell c).numberOfMinesAround c = 0
      then autoOpenL n (g.openCell c) ((g.openCell c).coordsAround c)
      else some (g.openCell c) := by
  unfold openGo
  rw [autoOpenL_eq_foldlM]

theorem openGo_zero (g : Game) (c : Int × Int) : openGo 0 g c = none := rfl

theorem autoOpenL_pres (n : Nat)
    (H : ∀ (g : Game) (c : Int × Int) (g' : Game), openGo n g c = some g' → Pres g g') :
    ∀ (l : List (Int × Int)) (g g' : Game), autoOpenL n g l = some g' → Pres g g' := by
  intro l
  induction l with
  | nil =>
    intro g g' h
    simp only [autoOpenL, Option.some.injEq] at h
    exact h ▸ Pres.refl g
  | cons d ds ih =>
    intro g g' h
    simp only [autoOpenL] at h
    split at h
    · exact ih g g' h
    · cases ho : openGo n g d with
      | none => rw [ho] at h; cases h
      | some g1 =>
        rw [ho] at h
        exact (H g d g1 ho).trans (ih g1 g' h)

theorem openGo_pres :
    ∀ (n : Nat) (g : Game) (c : Int × Int) (g' : Game), openGo n g c = some g' → Pres g g' := by
  intro n
  induction n with
  | zero => intro g c g' h; cases h
  | succ n ih =>
    intro g c g' h
    rw [openGo_succ] at h
    split at h
    · exact (pres_openCell g c).trans (autoOpenL_pres n ih _ _ _ h)
    · simp only [Option.some.injEq] at h
      exact h ▸ pres_openCell g c

/-! Effects of Game.toggle_flag. -/

theorem toggleFlagE_none_iff (g : Game) (c : Int × Int) :
    g.toggleFlagE c = none ↔ g.inRangeB c = false := by
  cases hin : g.inRangeB c with
  | true =>
    simp only [Game.toggleFlagE, Game.getSq, hin, if_true]
    constructor
    · intro hc; split at hc <;> cases hc
    · intro hc; cases hc
  | false =>
    simp [Game.toggleFlagE, Game.getSq, hin]

theorem toggleFlagE_of_opened (g : Game) (c : Int × Int)
    (h : g.inRangeB c = true) (ho : (g.squares c).opened = true) :
    g.toggleFlagE c = some g := by
  simp only [Game.toggleFlagE, Game.getSq, h, if_true, ho]

theorem toggleFlagE_of_closed (g : Game) (c : Int × Int)
    (h : g.inRangeB c = true) (ho : (g.squares c).opened = false) :
    g.toggleFlagE c =
      some (g.setSquare c { g.squares c with flagged := !(g.squares c).flagged }) := by
  simp only [Game.toggleFlagE, Game.getSq, h, if_true, ho, Bool.false_eq_true, if_false]

theorem toggleFlagE_effect (g : Game) (c : Int × Int) (g' : Game)
    (h : g.toggleFlagE c = some g') :
    g'.width = g.width ∧ g'.height = g.height ∧ g'.mines = g.mines ∧
      ∀ d : Int × Int, (g'.squares d).mine = (g.squares d).mine ∧
        (g'.squares d).opened = (g.squares d).opened := by
  by_cases hin : g.inRangeB c = true
  · cases hop : (g.squares c).opened with
    | true =>
      rw [toggleFlagE_of_opened g c hin hop] at h
      obtain rfl := Option.some.inj h
      exact ⟨rfl, rfl, rfl, fun d => ⟨rfl, rfl⟩⟩
    | false =>
      rw [toggleFlagE_of_closed g c hin hop] at h
      obtain rfl := Option.some.inj h
      refine ⟨rfl, rfl, rfl, fun d => ?_⟩
      by_cases hd : d = c
      · subst hd; rw [setSquare_same]; exact ⟨rfl, rfl⟩
      · rw [setSquare_ne g c d _ hd]; exact ⟨rfl, rfl⟩
  · simp only [Bool.not_eq_true] at hin
    rw [(toggleFlagE_none_iff g c).mpr hin] at h
    cases h

/-! Membership facts about the coordinate lists. -/

theorem mem_coordsAround_inRangeB (g : Game) (c d : Int × Int)
    (h : d ∈ g.coordsAround c) : g.inRangeB d = true := by
  unfold Game.coordsAround at h
  simp only [List.mem_flatMap] at h
  obtain ⟨xd, _, yd, _, hmem⟩ := h
  by_cases h1 : xd = 0 ∧ yd = 0
  · rw [if_pos h1] at hmem; cases hmem
  · rw [if_neg h1] at hmem
    split at hmem
    · next h2 => rw [List.mem_singleton] at hmem; subst hmem; exact h2
    · cases hmem

theorem numberOfMinesAround_eq_zero (g : Game) (c : Int × Int) :
    g.numberOfMinesAround c = 0 ↔ ∀ d ∈ g.coordsAround c, (g.squares d).mine = false := by
  unfold Game.numberOfMinesAround Game.minesAround
  rw [List.length_eq_zero, List.filter_eq_nil_iff]
  simp

theorem mem_intRange (n a : Int) : a ∈ intRange n ↔ 0 ≤ a ∧ a < n := by
  unfold intRange
  rw [List.mem_map]
  constructor
  · rintro ⟨i, hi, rfl⟩
    rw [List.mem_range] at hi
    omega
  · rintro ⟨h1, h2⟩
    refine ⟨a.toNat, ?_, ?_⟩
    · rw [List.mem_range]; omega
    · omega

theorem nodup_intRange (n : Int) : (intRange n).Nodup :=
  (List.nodup_range n.toNat).map fun a b h => by omega

theorem length_intRange (n : Int) : (intRange n).length = n.toNat := by
  simp [intRange]

theorem mem_allCoordsList (w h : Int) (c : Int × Int) :
    c ∈ allCoordsList w h ↔ 0 ≤ c.1 ∧ c.1 < w ∧ 0 ≤ c.2 ∧ c.2 < h := by
  obtain ⟨a, b⟩ := c
  unfold allCoordsList
  rw [List.mem_flatMap]
  constructor
  · rintro ⟨x, hx, hmem⟩
    rw [List.mem_map] at hmem
    obtain ⟨y, hy, heq⟩ := hmem
    rw [Prod.mk.injEq] at heq
    obtain ⟨rfl, rfl⟩ := heq
    rw [mem_intRange] at hx hy
    exact ⟨hx.1, hx.2, hy.1, hy.2⟩
  · rintro ⟨h1, h2, h3, h4⟩
    refine ⟨a, ?_, ?_⟩
    · rw [mem_intRange]; exact ⟨h1, h2⟩
    · rw [List.mem_map]
      exact ⟨b, by rw [mem_intRange]; exact ⟨h3, h4⟩, rfl⟩

theorem length_allCoordsList (w h : Int) :
    (allCoordsList w h).length = w.toNat * h.toNat := by
  unfold allCoordsList
  rw [List.length_flatMap]
  have h1 : (List.map (fun x => ((intRange h).map fun y => (x, y)).length) (intRange w))
      = List.replicate (intRange w).length h.toNat := by
    rw [List.eq_replicate_iff]
    refine ⟨by simp, ?_⟩
    intro b hb
    rw [List.mem_map] at hb
    obtain ⟨x, _, rfl⟩ := hb
    simp [length_intRange]
  simp only [Function.comp_def]
  rw [h1, List.sum_replicate, length_intRange, smul_eq_mul]

theorem nodup_allCoordsList (w h : Int) : (allCoordsList w h).Nodup := by
  unfold allCoordsList
  rw [List.nodup_flatMap]
  constructor
  · intro x _
    exact (nodup_intRange h).map fun a b hab => by
      rw [Prod.mk.injEq] at hab; exact hab.2
  · have key : ∀ a b : Int, a ≠ b →
        (((intRange h).map fun y => (a, y)).Disjoint ((intRange h).map fun y => (b, y))) := by
      intro a b hab p hpa hpb
      rw [List.mem_map] at hpa hpb
      obtain ⟨y1, _, heq1⟩ := hpa
      obtain ⟨y2, _, heq2⟩ := hpb
      apply hab
      rw [← heq1] at heq2
      rw [Prod.mk.injEq] at heq2
      exact heq2.1.symm
    have hnd := nodup_intRange w
    rw [List.Nodup] at hnd
    exact hnd.imp fun hab => key _ _ hab

theorem mem_allCoords (g : Game) (c : Int × Int) :
    c ∈ g.allCoords ↔ g.inRangeB c = true := by
  unfold Game.allCoords Game.inRangeB
  rw [mem_allCoordsList]
  simp [Bool.and_eq_true, and_assoc]

theorem exploded_iff (g : Game) :
    g.exploded = true ↔
      ∃ c : Int × Int, g.inRangeB c = true ∧
        (g.squares c).mine = true ∧ (g.squares c).opened = true := by
  unfold Game.exploded Game.explosionCoords
  simp only [List.find?_isSome, Bool.and_eq_true, mem_allCoords]

/-! Which squares can the flood-fill newly open?  Only unflagged ones, and,
except for the square open was called on, only squares seen as neighbours of
a zero-adjacency square, hence non-mines. -/

theorem autoOpenL_new (n : Nat)
    (H : ∀ (g : Game) (c : Int × Int) (g' : Game), openGo n g c = some g' →
      ∀ d, (g.squares d).opened = false → (g'.squares d).opened = true →
        (g.squares d).flagged = false ∧ (d ≠ c → (g.squares d).mine = false)) :
    ∀ (l : List (Int × Int)) (g g' : Game),
      (∀ d ∈ l, (g.squares d).mine = false) →
      autoOpenL n g l = some g' →
      ∀ d, (g.squares d).opened = false → (g'.squares d).opened = true →
        (g.squares d).flagged = false ∧ (g.squares d).mine = false := by
  intro l
  induction l with
  | nil =>
    intro g g' _ h d h1 h2
    simp only [autoOpenL, Option.some.injEq] at h
    subst h
    rw [h1] at h2
    cases h2
  | cons d ds ih =>
    intro g g' hm h e h1 h2
    simp only [autoOpenL] at h
    split at h
    · exact ih g g' (fun d' hd' => hm d' (List.mem_cons_of_mem _ hd')) h e h1 h2
    · cases ho : openGo n g d with
      | none => rw [ho] at h; cases h
      | some g1 =>
        rw [ho] at h
        have pres1 := openGo_pres n g d g1 ho
        by_cases he1 : (g1.squares e).opened = true
        · have hnew := H g d g1 ho e h1 he1
          refine ⟨hnew.1, ?_⟩
          by_cases hed : e = d
          · subst hed; exact hm e (List.mem_cons_self e ds)
          · exact hnew.2 hed
        · have h1' : (g1.squares e).opened = false := by
            simpa using he1
          have hm' : ∀ d' ∈ ds, (g1.squares d').mine = false := by
            intro d' hd'
            rw [(pres1.2.2.2 d').1.1]
            exact hm d' (List.mem_cons_of_mem _ hd')
          have hres := ih g1 g' hm' h e h1' h2
          exact ⟨((pres1.2.2.2 e).1.2).symm.trans hres.1,
                 ((pres1.2.2.2 e).1.1).symm.trans hres.2⟩

theorem openGo_new :
    ∀ (n : Nat) (g : Game) (c : Int × Int) (g' : Game), openGo n g c = some g' →
      ∀ d, (g.squares d).opened = false → (g'.squares d).opened = true →
        (g.squares d).flagged = false ∧ (d ≠ c → (g.squares d).mine = false) := by
  intro n
  induction n with
  | zero => intro g c g' h; cases h
  | succ n ih =>
    intro g c g' h d h1 h2
    rw [openGo_succ] at h
    split at h
    · next hz =>
      by_cases hd1 : ((g.openCell c).squares d).opened = true
      · obtain ⟨rfl, hflag⟩ := openCell_opened_new g c d h1 hd1
        exact ⟨hflag, fun hne => absurd rfl hne⟩
      · have hd1' : ((g.openCell c).squares d).opened = false := by simpa using hd1
        have hmines := (numberOfMinesAround_eq_zero (g.openCell c) c).mp hz
        have hres := autoOpenL_new n ih _ _ _ hmines h d hd1' h2
        constructor
        · rw [← openCell_flagged g c d]; exact hres.1
        · intro _; rw [← openCell_mine g c d]; exact hres.2
    · obtain rfl := Option.some.inj h
      obtain ⟨rfl, hflag⟩ := openCell_opened_new g c d h1 h2
      exact ⟨hflag, fun hne => absurd rfl hne⟩

/-! The explicitly-threaded adjacency count never fails and agrees with the
pure count: every dict access inside number_of_mines_around is on a
coordinate produced by coords_around, hence a key of the dict. -/

theorem foldCount (g : Game) :
    ∀ l : List (Int × Int), (∀ d ∈ l, g.inRangeB d = true) → ∀ acc : Nat,
      (l.foldlM
        (fun acc d =>
          match g.getSq d with
          | none => none
          | some sq => some (if sq.mine then acc + 1 else acc))
        acc)
      = some (acc + (l.filter fun d => (g.squares d).mine).length) := by
  intro l
  induction l with
  | nil => intro _ acc; simp [List.foldlM_nil]
  | cons d ds ih =>
    intro hin acc
    rw [List.foldlM_cons]
    have hsq : g.getSq d = some (g.squares d) := by
      unfold Game.getSq
      rw [if_pos (hin d (List.mem_cons_self d ds))]
    rw [hsq]
    have hstep : ∀ v : Nat,
        (some v >>= fun init =>
          List.foldlM
            (fun acc d =>
              match g.getSq d with
              | none => none
              | some sq => some (if sq.mine then acc + 1 else acc))
            init ds)
        = List.foldlM
            (fun acc d =>
              match g.getSq d with
              | none => none
              | some sq => some (if sq.mine then acc + 1 else acc))
            v ds := fun v => rfl
    rw [hstep]
    rw [ih (fun d' hd' => hin d' (List.mem_cons_of_mem _ hd'))]
    cases hm : (g.squares d).mine <;> simp [hm, List.filter_cons]
    omega

theorem numberOfMinesAroundE_eq (g : Game) (c : Int × Int) :
    g.numberOfMinesAroundE c = some (g.numberOfMinesAround c) := by
  unfold Game.numberOfMinesAroundE Game.numberOfMinesAround Game.minesAround
  rw [foldCount g _ (fun d hd => mem_coordsAround_inRangeB g c d hd) 0]
  simp

/-! A concrete game on which the flood-fill recursion never terminates: a
1 by 2 board with no mines whose two squares have both been flagged through
the public toggle_flag operation.  Opening either square then recurses
forever between the two squares: neither ever becomes opened (both are
flagged), both have adjacency count zero, and each is an unopened neighbour
of the other. -/

def game12a : Game :=
  ((mkGame 1 2 []).toggleFlagE (0, 0)).getD (mkGame 1 2 [])

def flaggedBoard : Game :=
  (game12a.toggleFlagE (0, 1)).getD game12a

theorem game12_toggle : (mkGame 1 2 []).toggleFlagE (0, 0) = some game12a := rfl

theorem game12a_toggle : game12a.toggleFlagE (0, 1) = some flaggedBoard := rfl

theorem flaggedBoard_reachable : Reachable flaggedBoard :=
  Reachable.flagStep (0, 1)
    (Reachable.flagStep (0, 0)
      (Reachable.init 1 2 [] List.nodup_nil (by intro c hc; cases hc))
      game12_toggle)
    game12a_toggle

theorem flaggedBoard_openCell_00 : flaggedBoard.openCell (0, 0) = flaggedBoard := rfl

theorem flaggedBoard_openCell_01 : flaggedBoard.openCell (0, 1) = flaggedBoard := rfl

theorem flaggedBoard_count_00 : flaggedBoard.numberOfMinesAround (0, 0) = 0 := rfl

theorem flaggedBoard_count_01 : flaggedBoard.numberOfMinesAround (0, 1) = 0 := rfl

theorem flaggedBoard_around_00 : flaggedBoard.coordsAround (0, 0) = [(0, 1)] := rfl

theorem flaggedBoard_around_01 : flaggedBoard.coordsAround (0, 1) = [(0, 0)] := rfl

theorem flaggedBoard_opened_00 : (flaggedBoard.squares (0, 0)).opened = false := rfl

theorem flaggedBoard_opened_01 : (flaggedBoard.squares (0, 1)).opened = false := rfl

theorem flaggedBoard_loop : ∀ n : Nat,
    openGo n flaggedBoard (0, 0) = none ∧ openGo n flaggedBoard (0, 1) = none := by
  intro n
  induction n with
  | zero => exact ⟨rfl, rfl⟩
  | succ n ih =>
    constructor
    · rw [openGo_succ, flaggedBoard_openCell_00, if_pos flaggedBoard_count_00,
        flaggedBoard_around_00]
      simp only [autoOpenL, flaggedBoard_opened_01, Bool.false_eq_true, if_false]
      rw [ih.2]
    · rw [openGo_succ, flaggedBoard_openCell_01, if_pos flaggedBoard_count_01,
        flaggedBoard_around_01]
      simp only [autoOpenL, flaggedBoard_opened_00, Bool.false_eq_true, if_false]
      rw [ih.1]

/-- C1: the claim states that for every board and every in-range coordinate
c the call open(c) terminates, with recursion depth bounded by width*height.
The code violates this: on the reachable 1 by 2 mine-free board whose two
squares were flagged through toggle_flag, open((0, 0)) is still recursing
after any number of nested calls (each of the two flagged squares has
adjacency count zero and remains unopened, so each auto-open pass recurses
into the other square forever); in Python the call dies with RecursionError.
The fuel-indexed embedding returns none for every fuel. -/
theorem c1_open_nonterminating :
    Reachable flaggedBoard ∧ flaggedBoard.inRangeB (0, 0) = true ∧
      (∀ fuel : Nat, openGo fuel flaggedBoard (0, 0) = none) ∧
      (∀ fuel : Nat, flaggedBoard.openTop fuel (0, 0) = OpenResult.noFuel) := by
  refine ⟨flaggedBoard_reachable, rfl, fun fuel => (flaggedBoard_loop fuel).1, fun fuel => ?_⟩
  show (match openGo fuel flaggedBoard (0, 0) with
        | some g' => OpenResult.ok g'
        | none => OpenResult.noFuel) = OpenResult.noFuel
  rw [(flaggedBoard_loop fuel).1]

/-- C2: after a terminating open(c) on an in-range coordinate c, every
square whose opened flag changed from false to true during the call, other
than the square at c itself, is not a mine: the auto-open cascade only ever
opens neighbours of zero-adjacency squares. -/
theorem c2_cascade_never_opens_mine (g : Game) (c d : Int × Int) (fuel : Nat) (g' : Game)
    (_hin : g.inRangeB c = true) (hopen : openGo fuel g c = some g') (hd : d ≠ c)
    (hbefore : (g.squares d).opened = false) (hafter : (g'.squares d).opened = true) :
    (g.squares d).mine = false :=
  (openGo_new fuel g c g' hopen d hbefore hafter).2 hd

def board12open : Game := (openGo 2 (mkGame 1 2 []) (0, 0)).getD (mkGame 1 2 [])

theorem board12open_eq : openGo 2 (mkGame 1 2 []) (0, 0) = some board12open := rfl

/-- Witness for C2: on the 1 by 2 mine-free board, open((0, 0)) cascades
into (0, 1) and the theorem yields that (0, 1) is not a mine. -/
theorem c2_witness : ((mkGame 1 2 []).squares (0, 1)).mine = false :=
  c2_cascade_never_opens_mine (mkGame 1 2 []) (0, 0) (0, 1) 2 board12open
    rfl board12open_eq (by decide) rfl rfl

/-- C3: on every reachable board state (fresh construction followed by any
sequence of successful open and toggle_flag calls) no square is ever
simultaneously flagged and opened: toggle_flag only flips flags of unopened
squares and open only opens unflagged squares. -/
theorem c3_no_flag_and_open (g : Game) (h : Reachable g) : NoFlagOpenInv g := by
  induction h with
  | init w hgt ml hnd hsub =>
    intro c hc
    exact Bool.false_ne_true hc.1
  | @openStep g g' fuel c hr hc ho ih =>
    intro c' hc'
    obtain ⟨hf, hop⟩ := hc'
    have pres := openGo_pres fuel g c g' ho
    have hfg : (g.squares c').flagged = true := ((pres.2.2.2 c').1.2).symm.trans hf
    by_cases hop0 : (g.squares c').opened = true
    · exact ih c' ⟨hfg, hop0⟩
    · have hop0' : (g.squares c').opened = false := by simpa using hop0
      have hunfl := (openGo_new fuel g c g' ho c' hop0' hop).1
      rw [hunfl] at hfg
      cases hfg
  | @flagStep g g' c hr ht ih =>
    intro c' hc'
    obtain ⟨hf, hop⟩ := hc'
    by_cases hin : g.inRangeB c = true
    · cases hopc : (g.squares c).opened with
      | true =>
        rw [toggleFlagE_of_opened g c hin hopc] at ht
        obtain rfl := Option.some.inj ht
        exact ih c' ⟨hf, hop⟩
      | false =>
        rw [toggleFlagE_of_closed g c hin hopc] at ht
        obtain rfl := Option.some.inj ht
        by_cases hdc : c' = c
        · rw [hdc, setSquare_same] at hop
          have h2 : (g.squares c).opened = true := hop
          rw [hopc] at h2
          cases h2
        · rw [setSquare_ne g c c' _ hdc] at hf hop
          exact ih c' ⟨hf, hop⟩
    · simp only [Bool.not_eq_true] at hin
      rw [(toggleFlagE_none_iff g c).mpr hin] at ht
      cases ht

/-- Witness for C3: the invariant holds of a freshly constructed board. -/
theorem c3_witness : NoFlagOpenInv (mkGame 1 1 []) :=
  c3_no_flag_and_open (mkGame 1 1 [])
    (Reachable.init 1 1 [] List.nodup_nil (by intro c hc; cases hc))

/-- C4: win() returns true if and only if every non-mine square is opened
and no mine square is opened. -/
theorem c4_win_iff (g : Game) :
    g.win = true ↔
      ((∀ c : Int × Int, g.inRangeB c = true → (g.squares c).mine = false →
          (g.squares c).opened = true) ∧
       (∀ c : Int × Int, g.inRangeB c = true → (g.squares c).mine = true →
          (g.squares c).opened = false)) := by
  unfold Game.win
  rw [Bool.and_eq_true, List.all_eq_true, Bool.not_eq_true']
  constructor
  · rintro ⟨hall, hnex⟩
    constructor
    · intro c hc hm
      have hor := hall c ((mem_allCoords g c).mpr hc)
      rw [Bool.or_eq_true] at hor
      rcases hor with h | h
      · rw [hm] at h; cases h
      · exact h
    · intro c hc hm
      by_contra hop
      rw [Bool.not_eq_false] at hop
      have hex : g.exploded = true := (exploded_iff g).mpr ⟨c, hc, hm, hop⟩
      rw [hnex] at hex
      cases hex
  · rintro ⟨h1, h2⟩
    constructor
    · intro c hcmem
      have hc := (mem_allCoords g c).mp hcmem
      rw [Bool.or_eq_true]
      cases hm : (g.squares c).mine with
      | true => exact Or.inl rfl
      | false => exact Or.inr (h1 c hc hm)
    · by_contra hex
      rw [Bool.not_eq_false] at hex
      obtain ⟨c, hc, hm, hop⟩ := (exploded_iff g).mp hex
      rw [h2 c hc hm] at hop
      cases hop

/-- C5: exploded() is true immediately after a terminating open called
directly on an unflagged in-range mine coordinate, and once exploded() is
true it stays true after every further terminating open and every
toggle_flag call: open never clears an opened bit and neither operation
changes a mine bit. -/
theorem c5_exploded_permanent (g : Game) (c : Int × Int) (fuel : Nat) (g' : Game) :
    (g.inRangeB c = true → (g.squares c).flagged = false → (g.squares c).mine = true →
      openGo fuel g c = some g' → g'.exploded = true) ∧
    (g.exploded = true → openGo fuel g c = some g' → g'.exploded = true) ∧
    (g.exploded = true → g.toggleFlagE c = some g' → g'.exploded = true) := by
  refine ⟨?_, ?_, ?_⟩
  · intro hin hfl hm hopen
    cases fuel with
    | zero => cases hopen
    | succ n =>
      rw [openGo_succ] at hopen
      have hopc : ((g.openCell c).squares c).opened = true := openCell_opened_self g c hfl
      have hmc : ((g.openCell c).squares c).mine = true := by
        rw [openCell_mine]; exact hm
      have hinc : (g.openCell c).inRangeB c = true := by
        rw [inRangeB_congr g (g.openCell c) c (openCell_width g c) (openCell_height g c)]
        exact hin
      split at hopen
      · have pres := autoOpenL_pres n (openGo_pres n) _ _ _ hopen
        rw [exploded_iff]
        refine ⟨c, ?_, ?_, ?_⟩
        · rw [inRangeB_congr (g.openCell c) g' c pres.1 pres.2.1]; exact hinc
        · rw [(pres.2.2.2 c).1.1]; exact hmc
        · exact (pres.2.2.2 c).2 hopc
      · obtain rfl := Option.some.inj hopen
        rw [exploded_iff]
        exact ⟨c, hinc, hmc, hopc⟩
  · intro hex hopen
    have pres := openGo_pres fuel g c g' hopen
    obtain ⟨e, he1, he2, he3⟩ := (exploded_iff g).mp hex
    rw [exploded_iff]
    refine ⟨e, ?_, ?_, ?_⟩
    · rw [inRangeB_congr g g' e pres.1 pres.2.1]; exact he1
    · rw [(pres.2.2.2 e).1.1]; exact he2
    · exact (pres.2.2.2 e).2 he3
  · intro hex ht
    obtain ⟨hw, hh, hmn, hsq⟩ := toggleFlagE_effect g c g' ht
    obtain ⟨e, he1, he2, he3⟩ := (exploded_iff g).mp hex
    rw [exploded_iff]
    refine ⟨e, ?_, ?_, ?_⟩
    · rw [inRangeB_congr g g' e hw hh]; exact he1
    · rw [(hsq e).1]; exact he2
    · rw [(hsq e).2]; exact he3

def mineBoard : Game := mkGame 1 1 [(0, 0)]

def boomed : Game := (openGo 1 mineBoard (0, 0)).getD mineBoard

theorem boomed_eq : openGo 1 mineBoard (0, 0) = some boomed := rfl

def boomed2 : Game := (openGo 1 boomed (0, 0)).getD boomed

theorem boomed2_eq : openGo 1 boomed (0, 0) = some boomed2 := rfl

/-- Witness for C5: opening the mine of a 1 by 1 board explodes it, and the
explosion survives a further open and a further toggle_flag. -/
theorem c5_witness :
    boomed.exploded = true ∧ boomed2.exploded = true ∧ boomed.exploded = true :=
  ⟨(c5_exploded_permanent mineBoard (0, 0) 1 boomed).1 rfl rfl rfl boomed_eq,
   (c5_exploded_permanent boomed (0, 0) 1 boomed2).2.1 (by decide) boomed2_eq,
   (c5_exploded_permanent boomed (0, 0) 1 boomed).2.2 (by decide) rfl⟩

/-- C6 (amended): on a coordinate outside the grid, open and toggle_flag
fail with KeyError, but number_of_mines_around does not fail: it returns the
count of mines among the in-range neighbours, because its only dict accesses
are on coordinates produced by coords_around.  (The original claim wrongly
includes numberOfMinesAround among the operations failing out of range.) -/
theorem c6_out_of_range (g : Game) (c : Int × Int) (h : g.inRangeB c = false) :
    g.toggleFlagE c = none ∧
    (∀ fuel : Nat, g.openTop fuel c = OpenResult.keyErr) ∧
    g.numberOfMinesAroundE c = some (g.numberOfMinesAround c) := by
  refine ⟨(toggleFlagE_none_iff g c).mpr h, fun fuel => ?_, numberOfMinesAroundE_eq g c⟩
  unfold Game.openTop
  have hg : g.getSq c = none := by
    unfold Game.getSq
    rw [h]
    simp
  rw [hg]

/-- Counterexample for C6 as stated: number_of_mines_around succeeds on an
out-of-range coordinate.  On the 2 by 2 board with its mine at (0, 0),
calling it at (-1, -1) returns 1 (counting the mine at the single in-range
neighbour (0, 0)) instead of signalling an out-of-range error. -/
theorem c6_counterexample :
    (mkGame 2 2 [(0, 0)]).inRangeB (-1, -1) = false ∧
    (mkGame 2 2 [(0, 0)]).numberOfMinesAroundE (-1, -1) = some 1 :=
  ⟨rfl, rfl⟩

/-- Witness for C6 at the out-of-range coordinate (5, 0) of a 2 by 2
board. -/
theorem c6_witness :
    (mkGame 2 2 []).toggleFlagE (5, 0) = none ∧
    (mkGame 2 2 []).openTop 3 (5, 0) = OpenResult.keyErr ∧
    (mkGame 2 2 []).numberOfMinesAroundE (5, 0) =
      some ((mkGame 2 2 []).numberOfMinesAround (5, 0)) :=
  ⟨(c6_out_of_range (mkGame 2 2 []) (5, 0) rfl).1,
   (c6_out_of_range (mkGame 2 2 []) (5, 0) rfl).2.1 3,
   (c6_out_of_range (mkGame 2 2 []) (5, 0) rfl).2.2⟩

/-- Counterexample for C7 as stated: the claim requires construction to
fail whenever a dimension is non-positive and to succeed otherwise.  In
the code Game(0, 5, 0) succeeds (random.sample of the empty coordinate
list with k = 0 returns []), and Game(2, 2, -1) fails (ValueError for a
negative sample size) although both dimensions are positive and
-1 <= width*height. -/
theorem c7_counterexample : sampleOk 0 5 0 = true ∧ sampleOk 2 2 (-1) = false := by
  exact ⟨rfl, rfl⟩

/-- C7 (amended): construction succeeds iff the mine count is non-negative
and at most the number of grid coordinates, equivalently iff the mine count
is non-negative and a duplicate-free list of that many on-board coordinates
exists; non-positive dimensions alone do not make construction fail. -/
theorem c7_construction_ok (w h m : Int) :
    sampleOk w h m = true ↔
      (0 ≤ m ∧ ∃ ml : List (Int × Int), ml.Nodup ∧ (∀ c ∈ ml, c ∈ allCoordsList w h) ∧
        (ml.length : Int) = m) := by
  unfold sampleOk
  rw [Bool.and_eq_true, decide_eq_true_eq, decide_eq_true_eq]
  constructor
  · rintro ⟨h1, h2⟩
    refine ⟨h1, (allCoordsList w h).take m.toNat, ?_, ?_, ?_⟩
    · exact (nodup_allCoordsList w h).sublist (List.take_sublist _ _)
    · intro c hc
      exact List.take_subset _ _ hc
    · rw [List.length_take]
      omega
  · rintro ⟨h1, ml, hnd, hsub, hlen⟩
    refine ⟨h1, ?_⟩
    have hle : ml.length ≤ (allCoordsList w h).length := by
      have h3 : ml.toFinset.card = ml.length := List.toFinset_card_of_nodup hnd
      have h4 : ml.toFinset ⊆ (allCoordsList w h).toFinset := fun x hx =>
        List.mem_toFinset.mpr (hsub x (List.mem_toFinset.mp hx))
      calc ml.length = ml.toFinset.card := h3.symm
        _ ≤ (allCoordsList w h).toFinset.card := Finset.card_le_card h4
        _ ≤ (allCoordsList w h).length := List.toFinset_card_le _
    omega

/-- C8 (confirmed): every square of a freshly constructed board is closed
and unflagged, and the number of grid coordinates whose square is a mine is
exactly the sample size, i.e. the mine count. -/
theorem c8_fresh_board (w h : Int) (ml : List (Int × Int)) (hnd : ml.Nodup)
    (hsub : ∀ c ∈ ml, c ∈ allCoordsList w h) :
    (∀ c : Int × Int, ((mkGame w h ml).squares c).opened = false ∧
        ((mkGame w h ml).squares c).flagged = false) ∧
    ((allCoordsList w h).countP fun c => ((mkGame w h ml).squares c).mine) = ml.length := by
  refine ⟨fun c => ⟨rfl, rfl⟩, ?_⟩
  have hpred : (fun c => ((mkGame w h ml).squares c).mine)
      = fun c : Int × Int => decide (c ∈ ml) := rfl
  rw [hpred, List.countP_eq_length_filter]
  have hperm : ((allCoordsList w h).filter fun c : Int × Int => decide (c ∈ ml)).Perm ml := by
    apply List.perm_of_nodup_nodup_toFinset_eq
    · exact (nodup_allCoordsList w h).filter _
    · exact hnd
    · ext x
      simp only [List.mem_toFinset, List.mem_filter, decide_eq_true_eq]
      constructor
      · rintro ⟨_, h2⟩; exact h2
      · intro hx; exact ⟨hsub x hx, hx⟩
  exact hperm.length_eq

/-- Witness for C8 on a 2 by 1 board with one mine at (1, 0). -/
theorem c8_witness :
    ((allCoordsList 2 1).countP fun c => ((mkGame 2 1 [(1, 0)]).squares c).mine) = 1 ∧
    ((mkGame 2 1 [(1, 0)]).squares (0, 0)).opened = false :=
  ⟨(c8_fresh_board 2 1 [(1, 0)] (by decide) (by decide)).2,
   ((c8_fresh_board 2 1 [(1, 0)] (by decide) (by decide)).1 (0, 0)).1⟩

/-! Helper facts for the toggle_flag involution. -/

theorem setSquare_setSquare (g : Game) (c : Int × Int) (s1 s2 : Square) :
    (g.setSquare c s1).setSquare c s2 = g.setSquare c s2 := by
  unfold Game.setSquare
  simp only [Game.mk.injEq, true_and]
  funext d
  by_cases hd : d = c <;> simp [hd]

theorem setSquare_self (g : Game) (c : Int × Int) :
    g.setSquare c (g.squares c) = g := by
  obtain ⟨w, hgt, m, sq⟩ := g
  unfold Game.setSquare
  simp only [Game.mk.injEq, true_and]
  funext d
  by_cases hd : d = c <;> simp [hd]

/-- C9 (confirmed): on an in-range closed square, toggling the flag twice
restores the board exactly; on an in-range opened square, toggle_flag
returns the board unchanged no matter how many times it is applied. -/
theorem c9_toggle_involutive (g : Game) (c : Int × Int) (h : g.inRangeB c = true) :
    ((g.squares c).opened = false →
      ((g.toggleFlagE c).bind fun g1 => g1.toggleFlagE c) = some g) ∧
    ((g.squares c).opened = true →
      ∀ n : Nat, Nat.iterate (fun og => og.bind fun g1 => g1.toggleFlagE c) n (some g) = some g) := by
  constructor
  · intro hop
    rw [toggleFlagE_of_closed g c h hop]
    show (g.setSquare c { g.squares c with
      flagged := !(g.squares c).flagged }).toggleFlagE c = some g
    have hin1 : (g.setSquare c { g.squares c with
        flagged := !(g.squares c).flagged }).inRangeB c = true := by
      rw [inRangeB_congr g _ c (setSquare_width g c _) (setSquare_height g c _)]
      exact h
    have hop1 : ((g.setSquare c { g.squares c with
        flagged := !(g.squares c).flagged }).squares c).opened = false := by
      rw [setSquare_same]
      exact hop
    rw [toggleFlagE_of_closed _ c hin1 hop1]
    rw [setSquare_same, setSquare_setSquare]
    show some (g.setSquare c (Square.mk (g.squares c).opened (g.squares c).mine
      (!!(g.squares c).flagged))) = some g
    rw [Bool.not_not]
    show some (g.setSquare c (g.squares c)) = some g
    rw [setSquare_self]
  · intro hop n
    induction n with
    | zero => rfl
    | succ n ih =>
      rw [Function.iterate_succ_apply]
      have h1 : ((some g).bind fun g1 => g1.toggleFlagE c) = some g := by
        show g.toggleFlagE c = some g
        exact toggleFlagE_of_opened g c h hop
      rw [h1, ih]

/-- Witness for C9: double toggle on the fresh 1 by 1 board, and three
toggles on the opened square of the exploded 1 by 1 board. -/
theorem c9_witness :
    (((mkGame 1 1 []).toggleFlagE (0, 0)).bind fun g1 => g1.toggleFlagE (0, 0))
      = some (mkGame 1 1 []) ∧
    Nat.iterate (fun og => og.bind fun g1 => g1.toggleFlagE (0, 0)) 3 (some boomed)
      = some boomed :=
  ⟨(c9_toggle_involutive (mkGame 1 1 []) (0, 0) rfl).1 rfl,
   (c9_toggle_involutive boomed (0, 0) rfl).2 (by decide) 3⟩

/-- C10 (confirmed): a freshly constructed board whose mine count equals the
number of grid coordinates (the sample covers the whole grid) satisfies
win() and over() before any open or toggle_flag call, with no square
opened. -/
theorem c10_all_mines_win (w h : Int) (ml : List (Int × Int)) (hnd : ml.Nodup)
    (hsub : ∀ c ∈ ml, c ∈ allCoordsList w h)
    (hlen : ml.length = (allCoordsList w h).length) :
    (mkGame w h ml).win = true ∧ (mkGame w h ml).over = true := by
  have hcov : ∀ c ∈ allCoordsList w h, c ∈ ml := by
    have h4 : ml.toFinset ⊆ (allCoordsList w h).toFinset := fun x hx =>
      List.mem_toFinset.mpr (hsub x (List.mem_toFinset.mp hx))
    have hcard : (allCoordsList w h).toFinset.card ≤ ml.toFinset.card := by
      rw [List.toFinset_card_of_nodup hnd,
        List.toFinset_card_of_nodup (nodup_allCoordsList w h), hlen]
    have heq : ml.toFinset = (allCoordsList w h).toFinset :=
      Finset.eq_of_subset_of_card_le h4 hcard
    intro c hc
    exact List.mem_toFinset.mp (heq ▸ List.mem_toFinset.mpr hc)
  have hnoex : ¬((mkGame w h ml).exploded = true) := by
    rw [exploded_iff]
    rintro ⟨c, _, _, hop⟩
    exact Bool.false_ne_true hop
  have hwin : (mkGame w h ml).win = true := by
    unfold Game.win
    rw [Bool.and_eq_true, List.all_eq_true]
    constructor
    · intro c hc
      rw [Bool.or_eq_true]
      exact Or.inl (decide_eq_true (hcov c hc))
    · rw [Bool.not_eq_true']
      exact Bool.eq_false_iff.mpr hnoex
  refine ⟨hwin, ?_⟩
  unfold Game.over
  rw [hwin, Bool.or_true]

/-- Witness for C10: the 1 by 1 board whose single square is a mine. -/
theorem c10_witness :
    (mkGame 1 1 [(0, 0)]).win = true ∧ (mkGame 1 1 [(0, 0)]).over = true :=
  c10_all_mines_win 1 1 [(0, 0)] (by decide) (by decide) (by decide)

end Minesweeper
